import Mathlib

/-!
RBC_2025, a gamepad-driven differential robot (src/main.cpp)

A shallow embedding of the firmware's single translation unit.

* Machine integers: `uint8_t` and `uint16_t` values are `Nat` with the
  reductions `% 256` and `% 65536` written where the C++ converts; `int` and
  `long` values are `Int`, with `Int.tdiv` for the C++ `/` (truncation toward
  zero).  Signed overflow is undefined in C++ and is not given a meaning here;
  the joystick axes are documented by the source to lie in -7..7.
* The program state is one record, `World`: the duty last written to each of
  the four PWM pins, the global `speedPct`, the global `lastStatusMs`, the text
  printed on the diagnostic port, and the secondary serial link.
* The secondary link (`btSerial`) is an observation trace: the bytes written are
  accumulated in `btTx`, and what the polling loops will observe is the list
  `polls`, one `Poll` per loop iteration.
-/

namespace RBC

/-! ## Pins and PWM outputs -/

/-- Left motor forward pin. -/
def IN1 : Nat := 5
/-- Left motor backward pin. -/
def IN2 : Nat := 6
/-- Right motor forward pin. -/
def IN3 : Nat := 9
/-- Right motor backward pin. -/
def IN4 : Nat := 10

/-- One observation of a polling loop on the secondary link. -/
inductive Poll where
  /-- The deadline test `millis() - start < timeoutMs` fails. -/
  | expired : Poll
  /-- The deadline is not reached and `btSerial.available()` is zero. -/
  | idle : Poll
  /-- The deadline is not reached and `btSerial.read()` returns `c`. -/
  | byte (c : Char) : Poll
  deriving DecidableEq, Repr

/-- The whole program state. -/
structure World where
  /-- Duty last written with `analogWrite(IN1, _)`. -/
  in1 : Int
  /-- Duty last written with `analogWrite(IN2, _)`. -/
  in2 : Int
  /-- Duty last written with `analogWrite(IN3, _)`. -/
  in3 : Int
  /-- Duty last written with `analogWrite(IN4, _)`. -/
  in4 : Int
  /-- The global `uint8_t speedPct`. -/
  speedPct : Nat
  /-- The global `unsigned long lastStatusMs`. -/
  lastStatusMs : Nat
  /-- Text printed on the diagnostic port `Serial`, one entry per call. -/
  serial : List String
  /-- Bytes written to the secondary link `btSerial`, oldest first. -/
  btTx : List Char
  /-- What the polling loops on `btSerial` will observe, next first. -/
  polls : List Poll
  /-- Whether `Dabble.begin` has been called. -/
  dabbleBegun : Bool
  deriving DecidableEq, Repr

/-- The four PWM duties as a tuple `(IN1, IN2, IN3, IN4)`. -/
def World.outputs (w : World) : Int × Int × Int × Int :=
  (w.in1, w.in2, w.in3, w.in4)

/-- The call `analogWrite(pin, val)`: records the duty on the named pin; a pin that is
not one of the four motor pins is not part of the state. -/
def analogWrite (pin : Nat) (val : Int) (w : World) : World :=
  if pin = IN1 then { w with in1 := val }
  else if pin = IN2 then { w with in2 := val }
  else if pin = IN3 then { w with in3 := val }
  else if pin = IN4 then { w with in4 := val }
  else w

/-- The function `uint8_t pwmFromPct(uint8_t pct) { return (uint16_t)pct * 255 / 100; }`:
the argument is converted to `uint8_t`, the product is taken in 16 bits
unsigned, and the quotient is converted to `uint8_t`. -/
def pwmFromPct (pct : Nat) : Nat :=
  ((pct % 256) * 255 % 65536) / 100 % 256

/-- The function `stopMotors`. -/
def stopMotors (w : World) : World :=
  analogWrite IN4 0 (analogWrite IN3 0 (analogWrite IN2 0 (analogWrite IN1 0 w)))

/-- The function `driveForward`. -/
def driveForward (w : World) : World :=
  let w := analogWrite IN1 (pwmFromPct w.speedPct) w
  let w := analogWrite IN2 0 w
  let w := analogWrite IN3 (pwmFromPct w.speedPct) w
  analogWrite IN4 0 w

/-- The function `driveBackward`. -/
def driveBackward (w : World) : World :=
  let w := analogWrite IN1 0 w
  let w := analogWrite IN2 (pwmFromPct w.speedPct) w
  let w := analogWrite IN3 0 w
  analogWrite IN4 (pwmFromPct w.speedPct) w

/-- The function `turnLeft`: left motor backward at half the percentage, right
motor forward.  `speedPct/2` is an `int` division of a non-negative value. -/
def turnLeft (w : World) : World :=
  let w := analogWrite IN1 0 w
  let w := analogWrite IN2 (pwmFromPct (w.speedPct / 2)) w
  let w := analogWrite IN3 (pwmFromPct w.speedPct) w
  analogWrite IN4 0 w

/-- The function `turnRight`. -/
def turnRight (w : World) : World :=
  let w := analogWrite IN1 (pwmFromPct w.speedPct) w
  let w := analogWrite IN2 0 w
  let w := analogWrite IN3 0 w
  analogWrite IN4 (pwmFromPct (w.speedPct / 2)) w

/-- The function `setupPins`: `pinMode` has no effect on the modelled state. -/
def setupPins (w : World) : World :=
  stopMotors w

/-! ## The dispatcher -/

/-- What the gamepad module reports during one pass, after `Dabble.processInput()`. -/
structure GamePad where
  /-- `GamePad.isUpPressed()` -/
  up : Bool
  /-- `GamePad.isDownPressed()` -/
  down : Bool
  /-- `GamePad.isLeftPressed()` -/
  left : Bool
  /-- `GamePad.isRightPressed()` -/
  right : Bool
  /-- `GamePad.isStartPressed()` -/
  start : Bool
  /-- `GamePad.isSelectPressed()` -/
  select : Bool
  /-- `GamePad.getXaxisData()` converted to `int`. -/
  xAxis : Int
  /-- `GamePad.getYaxisData()` converted to `int`. -/
  yAxis : Int
  deriving DecidableEq, Repr

/-- The lambda `clamp` of `loopBLE`: `if (v>7) v=7; if (v<-7) v=-7; return v;`. -/
def clamp (v : Int) : Int :=
  let v := if v > 7 then 7 else v
  let v := if v < -7 then -7 else v
  v

/-- Modelled from the spec: the Arduino core function `long map(long x, long in_min,
long in_max, long out_min, long out_max)` is called by `loopBLE` and is not under src/.
Spec 4.3 has the mixer "linearly rescale from [-7,7] to [-255,255]"; the body is the
core's integer formula `(x - in_min) * (out_max - out_min) / (in_max - in_min) + out_min`
with the truncating division of C++. -/
def map (x in_min in_max out_min out_max : Int) : Int :=
  Int.tdiv ((x - in_min) * (out_max - out_min)) (in_max - in_min) + out_min

/-- The joystick branch of `loopBLE` (lines 100 to 111): mix, clamp, rescale and apply. -/
def applyJoystick (joyX joyY : Int) (w : World) : World :=
  let forward := joyY
  let turn := joyX
  let left := forward - Int.tdiv turn 2
  let right := forward + Int.tdiv turn 2
  let left := clamp left
  let right := clamp right
  let base : Int := 255
  let lPWM := map left (-7) 7 (-base) base
  let rPWM := map right (-7) 7 (-base) base
  let w := if lPWM ≥ 0 then analogWrite IN2 0 (analogWrite IN1 lPWM w)
           else analogWrite IN2 (-lPWM) (analogWrite IN1 0 w)
  let w := if rPWM ≥ 0 then analogWrite IN4 0 (analogWrite IN3 rPWM w)
           else analogWrite IN4 (-rPWM) (analogWrite IN3 0 w)
  w

/-- The `if`/`else if` ladder of `loopBLE` (lines 88 to 93): the state after the
discrete command, and the flag `moved`. -/
def discreteCommand (pad : GamePad) (w : World) : World × Bool :=
  if pad.up then (driveForward w, true)
  else if pad.down then (driveBackward w, true)
  else if pad.left then (turnLeft w, true)
  else if pad.right then (turnRight w, true)
  else if pad.start || pad.select then (stopMotors w, true)
  else (w, false)

/-- The function `loopBLE`, one pass of the dispatcher.  `pad` is what the gamepad
module reports after `Dabble.processInput()`; `t1` and `t2` are the values of the
two calls of `millis()`. -/
def loopBLE (pad : GamePad) (t1 t2 : Nat) (w : World) : World :=
  let (w, moved) := discreteCommand pad w
  let joyX := pad.xAxis
  let joyY := pad.yAxis
  let w :=
    if !moved && (joyX != 0 || joyY != 0) then applyJoystick joyX joyY w
    else if !moved && joyX == 0 && joyY == 0 then stopMotors w
    else w
  if (t1 % 4294967296 + 4294967296 - w.lastStatusMs % 4294967296) % 4294967296 > 3000 then
    { w with lastStatusMs := t2, serial := w.serial ++ ["BLE Loop alive\r\n"] }
  else w

/-! ## The rename handshake on the secondary link -/

/-- The constant `AT_COMMAND_TIMEOUT_MS`. -/
def AT_COMMAND_TIMEOUT_MS : Nat := 1500

/-- The character `expect[i]` of a C string: the terminating NUL at and past the end. -/
def charAt (s : List Char) (i : Nat) : Char :=
  s.getD i (Char.ofNat 0)

/-- The loops of `flushBtInput` on the observation trace: the outer loop runs until its
deadline test fails, the inner loop reads and drops every byte that is available, so
every observation up to the first `expired` is consumed.  The trace running out stands
for the deadline. -/
def flushLoop : List Poll → List Poll
  | [] => []
  | Poll.expired :: rest => rest
  | Poll.idle :: rest => flushLoop rest
  | Poll.byte _ :: rest => flushLoop rest

/-- The function `flushBtInput(waitMs)`. -/
def flushBtInput (_waitMs : Nat) (w : World) : World :=
  { w with polls := flushLoop w.polls }

/-- The `while` loop of `waitForBtResponse` with the local `idx`, on the observation
trace: the result and the observations left for later loops.  The trace running out
stands for the deadline. -/
def waitLoop (expect : List Char) (len : Nat) : Nat → List Poll → Bool × List Poll
  | _, [] => (false, [])
  | _, Poll.expired :: rest => (false, rest)
  | idx, Poll.idle :: rest => waitLoop expect len idx rest
  | idx, Poll.byte c :: rest =>
    if c = charAt expect idx then
      if idx + 1 = len then (true, rest) else waitLoop expect len (idx + 1) rest
    else waitLoop expect len (if c = charAt expect 0 then 1 else 0) rest

/-- The function `waitForBtResponse(expect, timeoutMs)`. -/
def waitForBtResponse (expect : List Char) (_timeoutMs : Nat) (w : World) : Bool × World :=
  let r := waitLoop expect expect.length 0 w.polls
  (r.1, { w with polls := r.2 })

/-- The function `sendAtCommand(cmd)`. -/
def sendAtCommand (cmd : List Char) (w : World) : World :=
  { w with
    btTx := w.btTx ++ cmd ++ "\r\n".toList
    serial := w.serial ++ ["AT> ", String.mk cmd ++ "\r\n"] }

/-- The call `Serial.println(s)`. -/
def serialPrintln (s : String) (w : World) : World :=
  { w with serial := w.serial ++ [s ++ "\r\n"] }

/-- The function `attemptAutoRename`, with the compile-time string `BT_DESIRED_NAME` as
a parameter.  `btSerial.begin` and `delay` have no effect on the modelled state. -/
def attemptAutoRename (BT_DESIRED_NAME : List Char) (w : World) : World :=
  if BT_DESIRED_NAME.length = 0 then
    serialPrintln "BT rename disabled (empty BT_DESIRED_NAME)." w
  else
    let w := flushBtInput 40 w
    let w := sendAtCommand "AT".toList w
    let (ok, w) := waitForBtResponse "OK".toList AT_COMMAND_TIMEOUT_MS w
    if !ok then
      serialPrintln "HM-10 no AT response (maybe already connected) - skipping rename." w
    else
      let w := serialPrintln "HM-10 responded OK." w
      let atName := "AT+NAME".toList ++ BT_DESIRED_NAME
      let w := sendAtCommand atName w
      let w := (waitForBtResponse "OK".toList AT_COMMAND_TIMEOUT_MS w).2
      let w := sendAtCommand "AT+RESET".toList w
      let w := (waitForBtResponse "OK".toList AT_COMMAND_TIMEOUT_MS w).2
      { w with
        serial := w.serial ++
          ["Rename attempt done -> ", String.mk BT_DESIRED_NAME ++ "\r\n"] }

/-- The function `setupSerial`.  `Serial.begin` and the wait `while(!Serial)` have no
effect on the modelled state; `Dabble.begin` is recorded in `dabbleBegun`. -/
def setupSerial (BT_DESIRED_NAME : List Char) (w : World) : World :=
  let w := serialPrintln "Startup: attempting optional HM-10 rename (if enabled)" w
  let w := attemptAutoRename BT_DESIRED_NAME w
  let w := serialPrintln "Remote Car Starting (HM-10 BLE / Dabble)" w
  { w with dabbleBegun := true }

/-- The function `setup`. -/
def setup (BT_DESIRED_NAME : List Char) (w : World) : World :=
  setupSerial BT_DESIRED_NAME (setupPins w)

/-- The bytes a polling loop reads if it runs to its deadline: the bytes observed before
the first `expired`. -/
def bytesBeforeTimeout : List Poll → List Char
  | [] => []
  | Poll.expired :: _ => []
  | Poll.idle :: rest => bytesBeforeTimeout rest
  | Poll.byte c :: rest => c :: bytesBeforeTimeout rest

/-- The bytes among a list of observations. -/
def bytesOf : List Poll → List Char
  | [] => []
  | Poll.byte c :: rest => c :: bytesOf rest
  | _ :: rest => bytesOf rest

/-! ## The mixed duties as functions of the axes -/

/-- The local `lPWM` of `loopBLE` as a function of the two axes (lines 100 to 107). -/
def lPWM (joyX joyY : Int) : Int :=
  map (clamp (joyY - Int.tdiv joyX 2)) (-7) 7 (-255) 255

/-- The local `rPWM` of `loopBLE` as a function of the two axes (lines 100 to 108). -/
def rPWM (joyX joyY : Int) : Int :=
  map (clamp (joyY + Int.tdiv joyX 2)) (-7) 7 (-255) 255

/-! ## The specification's wording of the mixer, for comparison with `applyJoystick` -/

namespace Spec

/-- Spec 4.3, "integer division, truncation toward zero": half of the magnitude of the
turn axis, with the sign of the turn axis. -/
def halfTurn (turn : Int) : Int :=
  if 0 ≤ turn then turn / 2 else -((-turn) / 2)

/-- Spec 4.3, "clamps each to [-7,7]". -/
def limit7 (v : Int) : Int :=
  max (-7) (min 7 v)

/-- Spec 4.3, "left = forward − turn/2", clamped. -/
def mixLeft (forward turn : Int) : Int :=
  limit7 (forward - halfTurn turn)

/-- Spec 4.3, "right = forward + turn/2", clamped. -/
def mixRight (forward turn : Int) : Int :=
  limit7 (forward + halfTurn turn)

/-- Spec 4.2, raw differential mode: the duty of the forward terminal for a signed
value, its magnitude when the value is positive and zero otherwise. -/
def forwardDuty (v : Int) : Int :=
  if 0 < v then |v| else 0

/-- Spec 4.2, raw differential mode: the duty of the backward terminal for a signed
value, its magnitude when the value is negative and zero otherwise. -/
def backwardDuty (v : Int) : Int :=
  if v < 0 then |v| else 0

end Spec

/-! ## Shared lemmas on the motor commands -/

theorem stopMotors_outputs (w : World) : (stopMotors w).outputs = (0, 0, 0, 0) := by
  simp [stopMotors, analogWrite, World.outputs, IN1, IN2, IN3, IN4]

theorem driveForward_outputs (w : World) :
    (driveForward w).outputs = (↑(pwmFromPct w.speedPct), 0, ↑(pwmFromPct w.speedPct), 0) := by
  simp [driveForward, analogWrite, World.outputs, IN1, IN2, IN3, IN4]

theorem driveBackward_outputs (w : World) :
    (driveBackward w).outputs = (0, ↑(pwmFromPct w.speedPct), 0, ↑(pwmFromPct w.speedPct)) := by
  simp [driveBackward, analogWrite, World.outputs, IN1, IN2, IN3, IN4]

theorem turnLeft_outputs (w : World) :
    (turnLeft w).outputs
      = (0, ↑(pwmFromPct (w.speedPct / 2)), ↑(pwmFromPct w.speedPct), 0) := by
  simp [turnLeft, analogWrite, World.outputs, IN1, IN2, IN3, IN4]

theorem turnRight_outputs (w : World) :
    (turnRight w).outputs
      = (↑(pwmFromPct w.speedPct), 0, 0, ↑(pwmFromPct (w.speedPct / 2))) := by
  simp [turnRight, analogWrite, World.outputs, IN1, IN2, IN3, IN4]

/-- No wrap below 256: the 16-bit product and the 8-bit conversions of `pwmFromPct` are
exact for every `uint8_t` argument up to 100. -/
theorem pwmFromPct_eq (pct : Nat) (h : pct ≤ 100) : pwmFromPct pct = pct * 255 / 100 := by
  unfold pwmFromPct
  have h1 : pct % 256 = pct := Nat.mod_eq_of_lt (by omega)
  have h2 : pct * 255 % 65536 = pct * 255 := Nat.mod_eq_of_lt (by omega)
  have h3 : pct * 255 / 100 < 256 := by omega
  rw [h1, h2, Nat.mod_eq_of_lt h3]

/-- The heartbeat at the end of `loopBLE` writes no PWM pin, and the three-way choice
after the ladder is decided by `moved` and the axes. -/
theorem loopBLE_outputs (pad : GamePad) (t1 t2 : Nat) (w : World) :
    (loopBLE pad t1 t2 w).outputs =
      if (discreteCommand pad w).2 = true then (discreteCommand pad w).1.outputs
      else if pad.xAxis ≠ 0 ∨ pad.yAxis ≠ 0 then (applyJoystick pad.xAxis pad.yAxis w).outputs
      else (0, 0, 0, 0) := by
  have hw : (discreteCommand pad w).2 = false → (discreteCommand pad w).1 = w := by
    unfold discreteCommand
    intro h
    split_ifs at h ⊢
    simp_all
  unfold loopBLE
  rcases hd : discreteCommand pad w with ⟨w1, moved⟩
  rw [hd] at hw
  cases moved
  · have : w1 = w := hw rfl
    subst this
    by_cases hxy : pad.xAxis ≠ 0 ∨ pad.yAxis ≠ 0
    · have hc : (pad.xAxis != 0 || pad.yAxis != 0) = true := by
        simpa using hxy
      simp only [hc, Bool.not_false, Bool.and_self, if_true, Bool.false_eq_true, if_false,
        if_pos hxy]
      split_ifs <;> rfl
    · have hc : (pad.xAxis != 0 || pad.yAxis != 0) = false := by
        simpa using hxy
      have hx : pad.xAxis = 0 := by
        by_contra hne
        exact hxy (Or.inl hne)
      have hy : pad.yAxis = 0 := by
        by_contra hne
        exact hxy (Or.inr hne)
      simp only [hc, hx, hy, Bool.not_false, Bool.and_false, Bool.false_eq_true, if_false,
        beq_self_eq_true, Bool.and_self, if_true, if_neg hxy]
      split_ifs <;> exact stopMotors_outputs w1
  · simp only [Bool.not_true, Bool.false_and, Bool.false_eq_true, if_false, if_true]
    split_ifs <;> rfl

/-- The ladder of `loopBLE`, case by case. -/
theorem discreteCommand_cases (pad : GamePad) (w : World) :
    discreteCommand pad w =
      if pad.up = true then (driveForward w, true)
      else if pad.down = true then (driveBackward w, true)
      else if pad.left = true then (turnLeft w, true)
      else if pad.right = true then (turnRight w, true)
      else if pad.start = true ∨ pad.select = true then (stopMotors w, true)
      else (w, false) := by
  unfold discreteCommand
  simp only [Bool.or_eq_true]

/-! ## The dispatcher contract -/

/-- C1: dead-man stop.  Whatever the four PWM duties and the speed setting were, a pass
of `loopBLE` in which none of Up, Down, Left, Right, Start, Select is pressed and both
joystick axes read 0 leaves IN1, IN2, IN3 and IN4 at 0. -/
theorem C1_dead_man_stop (pad : GamePad) (t1 t2 : Nat) (w : World)
    (hup : pad.up = false) (hdown : pad.down = false) (hleft : pad.left = false)
    (hright : pad.right = false) (hstart : pad.start = false)
    (hselect : pad.select = false) (hx : pad.xAxis = 0) (hy : pad.yAxis = 0) :
    (loopBLE pad t1 t2 w).in1 = 0 ∧ (loopBLE pad t1 t2 w).in2 = 0 ∧
    (loopBLE pad t1 t2 w).in3 = 0 ∧ (loopBLE pad t1 t2 w).in4 = 0 := by
  have h := loopBLE_outputs pad t1 t2 w
  rw [discreteCommand_cases] at h
  simp only [hup, hdown, hleft, hright, hstart, hselect, hx, hy, Bool.false_eq_true,
    if_false, or_self, ne_eq, not_true_eq_false] at h
  simp only [World.outputs, Prod.mk.injEq] at h
  exact h

/-- C1, at a concrete pass: the robot was driving forward at duty 178 and every input is
released. -/
theorem C1_dead_man_stop_witness :
    (loopBLE ⟨false, false, false, false, false, false, 0, 0⟩ 5000 5000
        ⟨178, 0, 178, 0, 70, 0, [], [], [], true⟩).in1 = 0 ∧
    (loopBLE ⟨false, false, false, false, false, false, 0, 0⟩ 5000 5000
        ⟨178, 0, 178, 0, 70, 0, [], [], [], true⟩).in2 = 0 ∧
    (loopBLE ⟨false, false, false, false, false, false, 0, 0⟩ 5000 5000
        ⟨178, 0, 178, 0, 70, 0, [], [], [], true⟩).in3 = 0 ∧
    (loopBLE ⟨false, false, false, false, false, false, 0, 0⟩ 5000 5000
        ⟨178, 0, 178, 0, 70, 0, [], [], [], true⟩).in4 = 0 :=
  C1_dead_man_stop ⟨false, false, false, false, false, false, 0, 0⟩ 5000 5000
    ⟨178, 0, 178, 0, 70, 0, [], [], [], true⟩ rfl rfl rfl rfl rfl rfl rfl rfl

/-- C2: first match wins, in the order Up, Down, Left, Right, then Start or Select.  After
one pass of `loopBLE` the four duties are those of the command of the highest-priority
pressed button, whatever lower-priority buttons and joystick axes are asserted too.  With
Up and Left both pressed the duties are those of `driveForward`; they differ from those of
`turnLeft` for every speed setting from 1 to 100 (at speed 0 both commands write four
zeros). -/
theorem C2_first_match_wins (pad : GamePad) (t1 t2 : Nat) (w : World) :
    (pad.up = true → (loopBLE pad t1 t2 w).outputs = (driveForward w).outputs) ∧
    (pad.up = false → pad.down = true →
      (loopBLE pad t1 t2 w).outputs = (driveBackward w).outputs) ∧
    (pad.up = false → pad.down = false → pad.left = true →
      (loopBLE pad t1 t2 w).outputs = (turnLeft w).outputs) ∧
    (pad.up = false → pad.down = false → pad.left = false → pad.right = true →
      (loopBLE pad t1 t2 w).outputs = (turnRight w).outputs) ∧
    (pad.up = false → pad.down = false → pad.left = false → pad.right = false →
      (pad.start = true ∨ pad.select = true) →
      (loopBLE pad t1 t2 w).outputs = (stopMotors w).outputs) ∧
    (pad.up = true → pad.left = true →
      (loopBLE pad t1 t2 w).outputs = (driveForward w).outputs ∧
      (1 ≤ w.speedPct → w.speedPct ≤ 100 →
        (loopBLE pad t1 t2 w).outputs ≠ (turnLeft w).outputs)) := by
  have h := loopBLE_outputs pad t1 t2 w
  rw [discreteCommand_cases] at h
  have hfwd : pad.up = true → (loopBLE pad t1 t2 w).outputs = (driveForward w).outputs := by
    intro hup
    simpa only [hup, if_true] using h
  refine ⟨hfwd, ?_, ?_, ?_, ?_, ?_⟩
  · intro hup hdown
    simpa only [hup, hdown, Bool.false_eq_true, if_false, if_true] using h
  · intro hup hdown hleft
    simpa only [hup, hdown, hleft, Bool.false_eq_true, if_false, if_true] using h
  · intro hup hdown hleft hright
    simpa only [hup, hdown, hleft, hright, Bool.false_eq_true, if_false, if_true] using h
  · intro hup hdown hleft hright hss
    simpa only [hup, hdown, hleft, hright, hss, Bool.false_eq_true, if_false, if_true]
      using h
  · intro hup _
    refine ⟨hfwd hup, ?_⟩
    intro h1 h100 heq
    rw [hfwd hup, driveForward_outputs, turnLeft_outputs, pwmFromPct_eq _ h100] at heq
    have h0 := congrArg Prod.fst heq
    simp only at h0
    omega

/-- C2, with Up and Left pressed together at the default speed 70: the duties are those of
`driveForward`, namely (178, 0, 178, 0). -/
theorem C2_first_match_wins_witness :
    (loopBLE ⟨true, false, true, false, false, false, 0, 0⟩ 0 0
        ⟨0, 0, 0, 0, 70, 0, [], [], [], true⟩).outputs = (178, 0, 178, 0) ∧
    (loopBLE ⟨true, false, true, false, false, false, 0, 0⟩ 0 0
        ⟨0, 0, 0, 0, 70, 0, [], [], [], true⟩).outputs
      ≠ (turnLeft ⟨0, 0, 0, 0, 70, 0, [], [], [], true⟩).outputs :=
  ⟨((C2_first_match_wins ⟨true, false, true, false, false, false, 0, 0⟩ 0 0
        ⟨0, 0, 0, 0, 70, 0, [], [], [], true⟩).2.2.2.2.2 rfl rfl).1.trans (by decide),
   ((C2_first_match_wins ⟨true, false, true, false, false, false, 0, 0⟩ 0 0
        ⟨0, 0, 0, 0, 70, 0, [], [], [], true⟩).2.2.2.2.2 rfl rfl).2 (by decide) (by decide)⟩

/-- C3: discrete inputs dominate the joystick.  Two passes of `loopBLE` with the same
button states and the same speed setting, at least one of Up, Down, Left, Right, Start,
Select being pressed, end with the same four duties, whatever the joystick axes, the
clock readings and the earlier duties of the two passes are. -/
theorem C3_discrete_dominates (pad pad' : GamePad) (t1 t2 t1' t2' : Nat) (w w' : World)
    (hup : pad.up = pad'.up) (hdown : pad.down = pad'.down) (hleft : pad.left = pad'.left)
    (hright : pad.right = pad'.right) (hstart : pad.start = pad'.start)
    (hselect : pad.select = pad'.select) (hspeed : w.speedPct = w'.speedPct)
    (hpressed : pad.up = true ∨ pad.down = true ∨ pad.left = true ∨ pad.right = true ∨
      pad.start = true ∨ pad.select = true) :
    (loopBLE pad t1 t2 w).outputs = (loopBLE pad' t1' t2' w').outputs := by
  have h := loopBLE_outputs pad t1 t2 w
  have h' := loopBLE_outputs pad' t1' t2' w'
  rw [discreteCommand_cases] at h h'
  rw [← hup, ← hdown, ← hleft, ← hright, ← hstart, ← hselect] at h'
  rw [h, h']
  split_ifs <;>
    simp_all [driveForward_outputs, driveBackward_outputs, turnLeft_outputs,
      turnRight_outputs, stopMotors_outputs]

/-- C3, at two passes with Down pressed: joystick centred in one, fully deflected in the
other. -/
theorem C3_discrete_dominates_witness :
    (loopBLE ⟨false, true, false, false, false, false, 0, 0⟩ 10 10
        ⟨1, 2, 3, 4, 70, 0, [], [], [], true⟩).outputs
      = (loopBLE ⟨false, true, false, false, false, false, 7, -7⟩ 20 21
        ⟨0, 0, 0, 0, 70, 0, [], [], [], true⟩).outputs :=
  C3_discrete_dominates ⟨false, true, false, false, false, false, 0, 0⟩
    ⟨false, true, false, false, false, false, 7, -7⟩ 10 10 20 21
    ⟨1, 2, 3, 4, 70, 0, [], [], [], true⟩ ⟨0, 0, 0, 0, 70, 0, [], [], [], true⟩
    rfl rfl rfl rfl rfl rfl rfl (Or.inr (Or.inl rfl))

/-! ## The duty mapper and the motor commands -/

/-- C4: for every percentage from 0 to 100, `pwmFromPct` is `pct * 255 / 100` with
truncating division and is at most 255; the product fits 16 bits and the quotient fits
8 bits, so neither conversion wraps.  Also 0 maps to 0, 70 to 178 and 100 to 255. -/
theorem C4_pwmFromPct_scaling (pct : Nat) (h : pct ≤ 100) :
    pwmFromPct pct = pct * 255 / 100 ∧ pwmFromPct pct ≤ 255 ∧
    pct % 256 = pct ∧ pct * 255 < 65536 ∧ pct * 255 / 100 < 256 ∧
    pwmFromPct 0 = 0 ∧ pwmFromPct 70 = 178 ∧ pwmFromPct 100 = 255 := by
  refine ⟨pwmFromPct_eq pct h, ?_, ?_, ?_, ?_, by decide, by decide, by decide⟩
  · rw [pwmFromPct_eq pct h]
    omega
  · omega
  · omega
  · omega

/-- C4, at the percentage 33, whose exact scaling 84.15 is truncated to 84. -/
theorem C4_pwmFromPct_scaling_witness : pwmFromPct 33 = 84 :=
  (C4_pwmFromPct_scaling 33 (by decide)).1.trans (by decide)

/-- C9: `driveForward` writes `pwmFromPct speedPct` on the forward pins IN1 and IN3 and 0
on the backward pins IN2 and IN4; `driveBackward` writes `pwmFromPct speedPct` on IN2 and
IN4 and 0 on IN1 and IN3.  For a speed setting up to 100 that duty is
`speedPct * 255 / 100`. -/
theorem C9_drive_forward_backward (w : World) :
    ((driveForward w).in1 = pwmFromPct w.speedPct ∧ (driveForward w).in2 = 0 ∧
     (driveForward w).in3 = pwmFromPct w.speedPct ∧ (driveForward w).in4 = 0) ∧
    ((driveBackward w).in1 = 0 ∧ (driveBackward w).in2 = pwmFromPct w.speedPct ∧
     (driveBackward w).in3 = 0 ∧ (driveBackward w).in4 = pwmFromPct w.speedPct) ∧
    (w.speedPct ≤ 100 → pwmFromPct w.speedPct = w.speedPct * 255 / 100) := by
  refine ⟨?_, ?_, pwmFromPct_eq w.speedPct⟩
  · have h := driveForward_outputs w
    simp only [World.outputs, Prod.mk.injEq] at h
    exact h
  · have h := driveBackward_outputs w
    simp only [World.outputs, Prod.mk.injEq] at h
    exact h

/-- C9, at the default speed 70: the drive duty is 178. -/
theorem C9_drive_forward_backward_witness :
    pwmFromPct (World.mk 0 0 0 0 70 0 [] [] [] true).speedPct = 70 * 255 / 100 :=
  (C9_drive_forward_backward ⟨0, 0, 0, 0, 70, 0, [], [], [], true⟩).2.2 (by decide)

/-- C10: `turnLeft` writes `pwmFromPct speedPct` on the right motor's forward pin IN3 and
`pwmFromPct (speedPct / 2)` on the left motor's backward pin IN2, and 0 on IN1 and IN4;
`turnRight` is the mirror image, `pwmFromPct speedPct` on IN1 and
`pwmFromPct (speedPct / 2)` on IN4, and 0 on IN2 and IN3.  For a speed setting up to 100
the two duties are `speedPct * 255 / 100` and `(speedPct / 2) * 255 / 100`. -/
theorem C10_turn_commands (w : World) :
    ((turnLeft w).in1 = 0 ∧ (turnLeft w).in2 = pwmFromPct (w.speedPct / 2) ∧
     (turnLeft w).in3 = pwmFromPct w.speedPct ∧ (turnLeft w).in4 = 0) ∧
    ((turnRight w).in1 = pwmFromPct w.speedPct ∧ (turnRight w).in2 = 0 ∧
     (turnRight w).in3 = 0 ∧ (turnRight w).in4 = pwmFromPct (w.speedPct / 2)) ∧
    (w.speedPct ≤ 100 → pwmFromPct w.speedPct = w.speedPct * 255 / 100 ∧
      pwmFromPct (w.speedPct / 2) = (w.speedPct / 2) * 255 / 100) := by
  refine ⟨?_, ?_, ?_⟩
  · have h := turnLeft_outputs w
    simp only [World.outputs, Prod.mk.injEq] at h
    exact h
  · have h := turnRight_outputs w
    simp only [World.outputs, Prod.mk.injEq] at h
    exact h
  · intro h
    exact ⟨pwmFromPct_eq _ h, pwmFromPct_eq _ (by omega)⟩

/-- C10, at the default speed 70: full duty 178 and half duty 89. -/
theorem C10_turn_commands_witness :
    pwmFromPct (World.mk 0 0 0 0 70 0 [] [] [] true).speedPct = 70 * 255 / 100 ∧
    pwmFromPct ((World.mk 0 0 0 0 70 0 [] [] [] true).speedPct / 2) = (70 / 2) * 255 / 100 :=
  (C10_turn_commands ⟨0, 0, 0, 0, 70, 0, [], [], [], true⟩).2.2 (by decide)

/-! ## Shared lemmas on the mixer -/

theorem applyJoystick_outputs (x y : Int) (w : World) :
    (applyJoystick x y w).outputs =
      (if 0 ≤ map (clamp (y - Int.tdiv x 2)) (-7) 7 (-255) 255
          then map (clamp (y - Int.tdiv x 2)) (-7) 7 (-255) 255 else 0,
       if 0 ≤ map (clamp (y - Int.tdiv x 2)) (-7) 7 (-255) 255
          then 0 else -map (clamp (y - Int.tdiv x 2)) (-7) 7 (-255) 255,
       if 0 ≤ map (clamp (y + Int.tdiv x 2)) (-7) 7 (-255) 255
          then map (clamp (y + Int.tdiv x 2)) (-7) 7 (-255) 255 else 0,
       if 0 ≤ map (clamp (y + Int.tdiv x 2)) (-7) 7 (-255) 255
          then 0 else -map (clamp (y + Int.tdiv x 2)) (-7) 7 (-255) 255) := by
  unfold applyJoystick
  simp only [ge_iff_le]
  split_ifs <;> simp [analogWrite, World.outputs, IN1, IN2, IN3, IN4]

theorem clamp_eq_limit7 (v : Int) : clamp v = Spec.limit7 v := by
  unfold clamp Spec.limit7
  simp only
  split_ifs <;> omega

theorem tdiv_two_eq_halfTurn (t : Int) : Int.tdiv t 2 = Spec.halfTurn t := by
  unfold Spec.halfTurn
  split_ifs with h
  · exact Int.tdiv_eq_ediv h (by decide)
  · have h2 : Int.tdiv (-t) 2 = (-t) / 2 := Int.tdiv_eq_ediv (by omega) (by decide)
    rw [← h2, Int.neg_tdiv, neg_neg]

theorem forwardDuty_eq (v : Int) : Spec.forwardDuty v = if 0 ≤ v then v else 0 := by
  unfold Spec.forwardDuty
  split_ifs with h1 h2 h2
  · exact abs_of_pos h1
  · omega
  · omega
  · rfl

theorem backwardDuty_eq (v : Int) : Spec.backwardDuty v = if 0 ≤ v then 0 else -v := by
  unfold Spec.backwardDuty
  split_ifs with h1 h2 h2
  · omega
  · exact abs_of_neg h1
  · rfl
  · omega

/-! ## Shared lemmas on the secondary link -/

theorem flushBtInput_btTx (ms : Nat) (w : World) : (flushBtInput ms w).btTx = w.btTx := rfl

theorem waitForBtResponse_btTx (expect : List Char) (ms : Nat) (w : World) :
    (waitForBtResponse expect ms w).2.btTx = w.btTx := rfl

theorem sendAtCommand_btTx (cmd : List Char) (w : World) :
    (sendAtCommand cmd w).btTx = w.btTx ++ cmd ++ ['\r', '\n'] := rfl

theorem serialPrintln_btTx (s : String) (w : World) : (serialPrintln s w).btTx = w.btTx := rfl

/-- The state after `attemptAutoRename` when the first wait fails. -/
theorem attemptAutoRename_of_no_reply (name : List Char) (w : World) (hname : name ≠ [])
    (hfail : (waitForBtResponse "OK".toList AT_COMMAND_TIMEOUT_MS
      (sendAtCommand "AT".toList (flushBtInput 40 w))).1 = false) :
    attemptAutoRename name w =
      serialPrintln "HM-10 no AT response (maybe already connected) - skipping rename."
        (waitForBtResponse "OK".toList AT_COMMAND_TIMEOUT_MS
          (sendAtCommand "AT".toList (flushBtInput 40 w))).2 := by
  have hlen : name.length ≠ 0 := by
    simpa using hname
  unfold attemptAutoRename
  rw [if_neg hlen]
  dsimp only
  generalize waitForBtResponse "OK".toList AT_COMMAND_TIMEOUT_MS
    (sendAtCommand "AT".toList (flushBtInput 40 w)) = r at hfail ⊢
  rcases r with ⟨ok, w2⟩
  simp only at hfail
  subst hfail
  rfl

theorem ok_infix_cons (c : Char) (l : List Char) :
    ['O', 'K'] <:+: c :: l ↔ (c = 'O' ∧ l.head? = some 'K') ∨ ['O', 'K'] <:+: l := by
  rw [List.infix_cons_iff, List.cons_prefix_cons]
  cases l with
  | nil => simp
  | cons d l => simp [List.cons_prefix_cons, eq_comm]

theorem ok_not_infix_nil : ¬ ['O', 'K'] <:+: ([] : List Char) := by
  simp

theorem charAt_ok_zero : charAt ['O', 'K'] 0 = 'O' := rfl
theorem charAt_ok_one : charAt ['O', 'K'] 1 = 'K' := rfl

theorem waitLoop_ok_byte_zero (c : Char) (rest : List Poll) :
    waitLoop ['O', 'K'] 2 0 (Poll.byte c :: rest) =
      if c = 'O' then waitLoop ['O', 'K'] 2 1 rest else waitLoop ['O', 'K'] 2 0 rest := by
  rw [waitLoop, charAt_ok_zero]
  split_ifs <;> simp_all

theorem waitLoop_ok_byte_one (c : Char) (rest : List Poll) :
    waitLoop ['O', 'K'] 2 1 (Poll.byte c :: rest) =
      if c = 'K' then (true, rest)
      else if c = 'O' then waitLoop ['O', 'K'] 2 1 rest else waitLoop ['O', 'K'] 2 0 rest := by
  rw [waitLoop, charAt_ok_one, charAt_ok_zero]
  split_ifs <;> simp_all

theorem waitLoop_ok_iff (ps : List Poll) :
    ((waitLoop ['O', 'K'] 2 0 ps).1 = true ↔ ['O', 'K'] <:+: bytesBeforeTimeout ps) ∧
    ((waitLoop ['O', 'K'] 2 1 ps).1 = true ↔ ['O', 'K'] <:+: 'O' :: bytesBeforeTimeout ps) := by
  induction ps with
  | nil => simp [waitLoop, bytesBeforeTimeout, ok_infix_cons]
  | cons p rest ih =>
    cases p with
    | expired => simp [waitLoop, bytesBeforeTimeout, ok_infix_cons]
    | idle => simpa [waitLoop, bytesBeforeTimeout] using ih
    | byte c =>
      rw [waitLoop_ok_byte_zero, waitLoop_ok_byte_one]
      simp only [bytesBeforeTimeout]
      constructor
      · rw [ok_infix_cons c]
        by_cases hO : c = 'O'
        · subst hO
          rw [if_pos rfl, ih.2, ok_infix_cons 'O']
        · rw [if_neg hO, ih.1]
          simp [hO]
      · rw [ok_infix_cons 'O', ok_infix_cons c]
        by_cases hK : c = 'K'
        · subst hK
          simp
        · rw [if_neg hK]
          by_cases hO : c = 'O'
          · subst hO
            rw [if_pos rfl, ih.2, ok_infix_cons 'O']
            simp
          · rw [if_neg hO, ih.1]
            simp [hO, hK]

theorem waitLoop_ok_first (ps : List Poll) :
    (∀ rest, waitLoop ['O', 'K'] 2 0 ps = (true, rest) →
      ∃ pre u, ps = pre ++ rest ∧ Poll.expired ∉ pre ∧
        bytesOf pre = u ++ ['O', 'K'] ∧ ¬ ['O', 'K'] <:+: u ++ ['O']) ∧
    (∀ rest, waitLoop ['O', 'K'] 2 1 ps = (true, rest) →
      ∃ pre u, ps = pre ++ rest ∧ Poll.expired ∉ pre ∧
        'O' :: bytesOf pre = u ++ ['O', 'K'] ∧ ¬ ['O', 'K'] <:+: u ++ ['O']) := by
  induction ps with
  | nil => simp [waitLoop]
  | cons p tl ih =>
    cases p with
    | expired => simp [waitLoop]
    | idle =>
      constructor
      · intro rest h
        rw [waitLoop] at h
        obtain ⟨pre, u, h1, h2, h3, h4⟩ := ih.1 rest h
        exact ⟨Poll.idle :: pre, u, by simp [h1], by simp [h2], by simpa [bytesOf] using h3, h4⟩
      · intro rest h
        rw [waitLoop] at h
        obtain ⟨pre, u, h1, h2, h3, h4⟩ := ih.2 rest h
        exact ⟨Poll.idle :: pre, u, by simp [h1], by simp [h2], by simpa [bytesOf] using h3, h4⟩
    | byte c =>
      constructor
      · intro rest h
        rw [waitLoop_ok_byte_zero] at h
        by_cases hO : c = 'O'
        · subst hO
          rw [if_pos rfl] at h
          obtain ⟨pre, u, h1, h2, h3, h4⟩ := ih.2 rest h
          exact ⟨Poll.byte 'O' :: pre, u, by simp [h1], by simp [h2],
            by simpa [bytesOf] using h3, h4⟩
        · rw [if_neg hO] at h
          obtain ⟨pre, u, h1, h2, h3, h4⟩ := ih.1 rest h
          refine ⟨Poll.byte c :: pre, c :: u, by simp [h1], by simp [h2],
            by simp [bytesOf, h3], ?_⟩
          rw [List.cons_append, ok_infix_cons]
          simp [hO, h4]
      · intro rest h
        rw [waitLoop_ok_byte_one] at h
        by_cases hK : c = 'K'
        · subst hK
          rw [if_pos rfl] at h
          have hr : tl = rest := by simpa using h
          subst hr
          refine ⟨[Poll.byte 'K'], [], by simp, by simp, by simp [bytesOf], ?_⟩
          simp [ok_infix_cons]
        · rw [if_neg hK] at h
          by_cases hO : c = 'O'
          · subst hO
            rw [if_pos rfl] at h
            obtain ⟨pre, u, h1, h2, h3, h4⟩ := ih.2 rest h
            refine ⟨Poll.byte 'O' :: pre, 'O' :: u, by simp [h1], by simp [h2],
              by simp [bytesOf, h3], ?_⟩
            rw [List.cons_append, ok_infix_cons]
            have hhead : (u ++ ['O']).head? ≠ some 'K' := by
              cases u with
              | nil => simp
              | cons d u' =>
                simp only [List.cons_append, List.cons.injEq] at h3
                simp [← h3.1]
            rintro (⟨_, hc⟩ | hc)
            · exact hhead hc
            · exact h4 hc
          · rw [if_neg hO] at h
            obtain ⟨pre, u, h1, h2, h3, h4⟩ := ih.1 rest h
            refine ⟨Poll.byte c :: pre, 'O' :: c :: u, by simp [h1], by simp [h2],
              by simp [bytesOf, h3], ?_⟩
            rw [List.cons_append, ok_infix_cons, List.cons_append, ok_infix_cons]
            simp [hO, hK, h4]

/-! ## The mixer contract -/

/-- C5: differential mixer.  With no discrete button pressed and the forward axis (Y) and
turn axis (X) in [-7, 7], not both zero, one pass of `loopBLE` computes
left = clamp(forward − turn/2) and right = clamp(forward + turn/2), with `turn/2` truncated
toward zero (-7 gives -3) and the clamp to [-7, 7], rescales both with `map` from
[-7, 7] to [-255, 255], and writes the rescaled left value to the left motor's pins
(IN1 forward, IN2 backward) and the rescaled right value to the right motor's pins
(IN3 forward, IN4 backward).  The sums stay within [-10, 10], far from the limits of
`int`. -/
theorem C5_differential_mixer (pad : GamePad) (t1 t2 : Nat) (w : World)
    (hup : pad.up = false) (hdown : pad.down = false) (hleft : pad.left = false)
    (hright : pad.right = false) (hstart : pad.start = false)
    (hselect : pad.select = false)
    (hf : -7 ≤ pad.yAxis ∧ pad.yAxis ≤ 7) (ht : -7 ≤ pad.xAxis ∧ pad.xAxis ≤ 7)
    (hnz : pad.xAxis ≠ 0 ∨ pad.yAxis ≠ 0) :
    (loopBLE pad t1 t2 w).outputs =
      (Spec.forwardDuty (map (Spec.mixLeft pad.yAxis pad.xAxis) (-7) 7 (-255) 255),
       Spec.backwardDuty (map (Spec.mixLeft pad.yAxis pad.xAxis) (-7) 7 (-255) 255),
       Spec.forwardDuty (map (Spec.mixRight pad.yAxis pad.xAxis) (-7) 7 (-255) 255),
       Spec.backwardDuty (map (Spec.mixRight pad.yAxis pad.xAxis) (-7) 7 (-255) 255)) ∧
    Spec.halfTurn (-7) = -3 ∧
    (-10 ≤ pad.yAxis - Int.tdiv pad.xAxis 2 ∧ pad.yAxis - Int.tdiv pad.xAxis 2 ≤ 10) ∧
    (-10 ≤ pad.yAxis + Int.tdiv pad.xAxis 2 ∧ pad.yAxis + Int.tdiv pad.xAxis 2 ≤ 10) := by
  have h := loopBLE_outputs pad t1 t2 w
  rw [discreteCommand_cases] at h
  simp only [hup, hdown, hleft, hright, hstart, hselect, Bool.false_eq_true, if_false,
    or_self, if_pos hnz] at h
  have hhalf : -3 ≤ Spec.halfTurn pad.xAxis ∧ Spec.halfTurn pad.xAxis ≤ 3 := by
    unfold Spec.halfTurn
    split_ifs <;> omega
  refine ⟨?_, by decide, ?_, ?_⟩
  · rw [h, applyJoystick_outputs]
    simp only [clamp_eq_limit7, tdiv_two_eq_halfTurn, forwardDuty_eq, backwardDuty_eq,
      Spec.mixLeft, Spec.mixRight]
  · rw [tdiv_two_eq_halfTurn]
    omega
  · rw [tdiv_two_eq_halfTurn]
    omega

/-- C5, at forward = 7 and turn = 7: left is 7 - 3 = 4, right is 10 clamped to 7, and the
duties become IN1 = 145, IN2 = 0, IN3 = 255, IN4 = 0. -/
theorem C5_differential_mixer_witness :
    Spec.mixLeft 7 7 = 4 ∧ Spec.mixRight 7 7 = 7 ∧
    (loopBLE ⟨false, false, false, false, false, false, 7, 7⟩ 0 0
        ⟨0, 0, 0, 0, 70, 0, [], [], [], true⟩).outputs = (145, 0, 255, 0) :=
  ⟨by decide, by decide,
   (C5_differential_mixer ⟨false, false, false, false, false, false, 7, 7⟩ 0 0
      ⟨0, 0, 0, 0, 70, 0, [], [], [], true⟩ rfl rfl rfl rfl rfl rfl
      (by decide) (by decide) (by decide)).1.trans (by decide)⟩

/-! ## The handshake contract -/

/-- C6: handshake skip.  With the empty desired name `attemptAutoRename` writes nothing to
the secondary link and reads nothing from it, whatever the link would deliver; the same
holds for the whole of `setupSerial`. -/
theorem C6_handshake_skip (w : World) :
    (attemptAutoRename "".toList w).btTx = w.btTx ∧
    (attemptAutoRename "".toList w).polls = w.polls ∧
    (setupSerial "".toList w).btTx = w.btTx := by
  refine ⟨rfl, rfl, rfl⟩

/-- C7: handshake abort.  For a non-empty desired name, if the wait for "OK" that follows
the command "AT" fails, then what `attemptAutoRename` writes to the secondary link is
exactly "AT" followed by CR LF, with neither "AT+NAME" nor "AT+RESET"; the function
returns, and `setupSerial` goes on to start the main link (`Dabble.begin`) having written
nothing more. -/
theorem C7_handshake_abort (name : List Char) (w : World) (hname : name ≠ [])
    (hfail : (waitForBtResponse "OK".toList AT_COMMAND_TIMEOUT_MS
      (sendAtCommand "AT".toList (flushBtInput 40 w))).1 = false) :
    (attemptAutoRename name w).btTx = w.btTx ++ ['A', 'T', '\r', '\n'] ∧
    (setupSerial name w).btTx = w.btTx ++ ['A', 'T', '\r', '\n'] ∧
    (setupSerial name w).dabbleBegun = true := by
  have key : ∀ v : World, v.polls = w.polls →
      (attemptAutoRename name v).btTx = v.btTx ++ ['A', 'T', '\r', '\n'] := by
    intro v hv
    have hfail' : (waitForBtResponse "OK".toList AT_COMMAND_TIMEOUT_MS
        (sendAtCommand "AT".toList (flushBtInput 40 v))).1 = false := by
      simpa only [waitForBtResponse, sendAtCommand, flushBtInput, hv] using hfail
    rw [attemptAutoRename_of_no_reply name v hname hfail', serialPrintln_btTx,
      waitForBtResponse_btTx, sendAtCommand_btTx, flushBtInput_btTx]
    simp
  refine ⟨key w rfl, ?_, rfl⟩
  exact key (serialPrintln "Startup: attempting optional HM-10 rename (if enabled)" w) rfl

/-- C7, on a link that delivers a stray "O" and then stays silent until the deadline. -/
theorem C7_handshake_abort_witness :
    (attemptAutoRename "ROFL_COPTER".toList
        ⟨0, 0, 0, 0, 70, 0, [], [], [Poll.expired, Poll.byte 'O', Poll.idle, Poll.expired],
          false⟩).btTx = ['A', 'T', '\r', '\n'] ∧
    (setupSerial "ROFL_COPTER".toList
        ⟨0, 0, 0, 0, 70, 0, [], [], [Poll.expired, Poll.byte 'O', Poll.idle, Poll.expired],
          false⟩).dabbleBegun = true :=
  ⟨(C7_handshake_abort "ROFL_COPTER".toList
      ⟨0, 0, 0, 0, 70, 0, [], [], [Poll.expired, Poll.byte 'O', Poll.idle, Poll.expired],
        false⟩ (by decide) (by decide)).1,
   (C7_handshake_abort "ROFL_COPTER".toList
      ⟨0, 0, 0, 0, 70, 0, [], [], [Poll.expired, Poll.byte 'O', Poll.idle, Poll.expired],
        false⟩ (by decide) (by decide)).2.2⟩

/-- C8: the wait for "OK" is a correct substring scan.  `waitForBtResponse "OK"` returns
true exactly when the bytes it can read before its deadline contain 'O', 'K' next to each
other; when it returns true it has consumed the observations up to the end of the first
occurrence (the bytes consumed end with "OK" and contain no earlier "OK"); and on the bytes
"OOK" it returns true. -/
theorem C8_ok_wait_is_substring_scan (t : Nat) (w : World) :
    ((waitForBtResponse "OK".toList t w).1 = true ↔
      ['O', 'K'] <:+: bytesBeforeTimeout w.polls) ∧
    ((waitForBtResponse "OK".toList t w).1 = true →
      ∃ pre u, w.polls = pre ++ (waitForBtResponse "OK".toList t w).2.polls ∧
        Poll.expired ∉ pre ∧ bytesOf pre = u ++ ['O', 'K'] ∧
        ¬ ['O', 'K'] <:+: u ++ ['O']) ∧
    (w.polls = [Poll.byte 'O', Poll.byte 'O', Poll.byte 'K'] →
      (waitForBtResponse "OK".toList t w).1 = true) := by
  refine ⟨(waitLoop_ok_iff w.polls).1, ?_, ?_⟩
  · intro h
    exact (waitLoop_ok_first w.polls).1 (waitLoop ['O', 'K'] 2 0 w.polls).2
      (Prod.ext h rfl)
  · intro h
    simp only [waitForBtResponse, h]
    decide

/-- C8, on the bytes "OOK": the wait succeeds, and the stream does contain "OK". -/
theorem C8_ok_wait_is_substring_scan_witness :
    (waitForBtResponse "OK".toList 1500
        ⟨0, 0, 0, 0, 70, 0, [], [], [Poll.byte 'O', Poll.byte 'O', Poll.byte 'K'],
          false⟩).1 = true ∧
    ['O', 'K'] <:+: ['O', 'O', 'K'] :=
  ⟨(C8_ok_wait_is_substring_scan 1500
      ⟨0, 0, 0, 0, 70, 0, [], [], [Poll.byte 'O', Poll.byte 'O', Poll.byte 'K'],
        false⟩).2.2 rfl,
   (C8_ok_wait_is_substring_scan 1500
      ⟨0, 0, 0, 0, 70, 0, [], [], [Poll.byte 'O', Poll.byte 'O', Poll.byte 'K'],
        false⟩).1.mp (by decide)⟩

/-! ## Shared lemmas on the rescale and the joystick branch -/

theorem map_clamped (v : Int) (h : -7 ≤ v ∧ v ≤ 7) :
    map v (-7) 7 (-255) 255 = (v + 7) * 510 / 14 - 255 := by
  unfold map
  have h1 : (v - -7) * (255 - -255) = (v + 7) * 510 := by ring
  have h2 : (7 : Int) - -7 = 14 := by norm_num
  rw [h1, h2, Int.tdiv_eq_ediv (by omega) (by decide)]
  omega

theorem clamp_range (v : Int) : -7 ≤ clamp v ∧ clamp v ≤ 7 := by
  rw [clamp_eq_limit7]
  unfold Spec.limit7
  omega

theorem map_clamped_range (v : Int) (h : -7 ≤ v ∧ v ≤ 7) :
    -255 ≤ map v (-7) 7 (-255) 255 ∧ map v (-7) 7 (-255) 255 ≤ 255 := by
  rw [map_clamped v h]
  omega

theorem map_clamped_lt (u v : Int) (hu : -7 ≤ u) (huv : u < v) (hv : v ≤ 7) :
    map u (-7) 7 (-255) 255 < map v (-7) 7 (-255) 255 := by
  rw [map_clamped u ⟨hu, by omega⟩, map_clamped v ⟨by omega, hv⟩]
  omega

theorem map_clamped_eq_zero (v : Int) (h : -7 ≤ v ∧ v ≤ 7) :
    map v (-7) 7 (-255) 255 = 0 ↔ v = 0 := by
  rw [map_clamped v h]
  omega

theorem applyJoystick_split (x y : Int) (w : World) :
    (applyJoystick x y w).outputs =
      (if 0 ≤ lPWM x y then lPWM x y else 0, if 0 ≤ lPWM x y then 0 else -lPWM x y,
       if 0 ≤ rPWM x y then rPWM x y else 0, if 0 ≤ rPWM x y then 0 else -rPWM x y) :=
  applyJoystick_outputs x y w

theorem lPWM_range (x y : Int) : -255 ≤ lPWM x y ∧ lPWM x y ≤ 255 :=
  map_clamped_range _ (clamp_range _)

theorem rPWM_range (x y : Int) : -255 ≤ rPWM x y ∧ rPWM x y ≤ 255 :=
  map_clamped_range _ (clamp_range _)

theorem pwmFromPct_le (pct : Nat) : pwmFromPct pct ≤ 255 := by
  unfold pwmFromPct
  omega


theorem loopBLE_joystick_outputs (pad : GamePad) (t1 t2 : Nat) (w : World)
    (hup : pad.up = false) (hdown : pad.down = false) (hleft : pad.left = false)
    (hright : pad.right = false) (hstart : pad.start = false)
    (hselect : pad.select = false) :
    (loopBLE pad t1 t2 w).outputs =
      if pad.xAxis ≠ 0 ∨ pad.yAxis ≠ 0 then (applyJoystick pad.xAxis pad.yAxis w).outputs
      else (0, 0, 0, 0) := by
  have h := loopBLE_outputs pad t1 t2 w
  rw [discreteCommand_cases] at h
  simpa only [hup, hdown, hleft, hright, hstart, hselect, Bool.false_eq_true, if_false,
    or_self] using h

/-! ## The joystick branch: split, rescale, invariants -/

/-- C11: raw signed-duty split.  In a pass of `loopBLE` that takes the joystick branch, the
signed duties `lPWM` and `rPWM` produced by the mixer lie in [-255, 255]; for each motor a
duty v ≥ 0 is written to the forward pin with 0 on the backward pin, and a duty v < 0 gives
0 on the forward pin and -v on the backward pin.  So each of the four pins receives a value
in [0, 255], and forward minus backward is v. -/
theorem C11_raw_signed_split (pad : GamePad) (t1 t2 : Nat) (w : World)
    (hup : pad.up = false) (hdown : pad.down = false) (hleft : pad.left = false)
    (hright : pad.right = false) (hstart : pad.start = false)
    (hselect : pad.select = false) (hnz : pad.xAxis ≠ 0 ∨ pad.yAxis ≠ 0) :
    ((-255 ≤ lPWM pad.xAxis pad.yAxis ∧ lPWM pad.xAxis pad.yAxis ≤ 255) ∧
     (-255 ≤ rPWM pad.xAxis pad.yAxis ∧ rPWM pad.xAxis pad.yAxis ≤ 255)) ∧
    (0 ≤ lPWM pad.xAxis pad.yAxis →
      (loopBLE pad t1 t2 w).in1 = lPWM pad.xAxis pad.yAxis ∧ (loopBLE pad t1 t2 w).in2 = 0) ∧
    (lPWM pad.xAxis pad.yAxis < 0 →
      (loopBLE pad t1 t2 w).in1 = 0 ∧ (loopBLE pad t1 t2 w).in2 = -lPWM pad.xAxis pad.yAxis) ∧
    (0 ≤ rPWM pad.xAxis pad.yAxis →
      (loopBLE pad t1 t2 w).in3 = rPWM pad.xAxis pad.yAxis ∧ (loopBLE pad t1 t2 w).in4 = 0) ∧
    (rPWM pad.xAxis pad.yAxis < 0 →
      (loopBLE pad t1 t2 w).in3 = 0 ∧ (loopBLE pad t1 t2 w).in4 = -rPWM pad.xAxis pad.yAxis) ∧
    ((0 ≤ (loopBLE pad t1 t2 w).in1 ∧ (loopBLE pad t1 t2 w).in1 ≤ 255) ∧
     (0 ≤ (loopBLE pad t1 t2 w).in2 ∧ (loopBLE pad t1 t2 w).in2 ≤ 255) ∧
     (0 ≤ (loopBLE pad t1 t2 w).in3 ∧ (loopBLE pad t1 t2 w).in3 ≤ 255) ∧
     (0 ≤ (loopBLE pad t1 t2 w).in4 ∧ (loopBLE pad t1 t2 w).in4 ≤ 255)) ∧
    (loopBLE pad t1 t2 w).in1 - (loopBLE pad t1 t2 w).in2 = lPWM pad.xAxis pad.yAxis ∧
    (loopBLE pad t1 t2 w).in3 - (loopBLE pad t1 t2 w).in4 = rPWM pad.xAxis pad.yAxis := by
  have h := loopBLE_joystick_outputs pad t1 t2 w hup hdown hleft hright hstart hselect
  rw [if_pos hnz, applyJoystick_split] at h
  simp only [World.outputs, Prod.mk.injEq] at h
  obtain ⟨h1, h2, h3, h4⟩ := h
  have hl := lPWM_range pad.xAxis pad.yAxis
  have hr := rPWM_range pad.xAxis pad.yAxis
  rw [h1, h2, h3, h4]
  refine ⟨⟨hl, hr⟩, ?_, ?_, ?_, ?_, ?_, ?_, ?_⟩
  · intro hp
    simp [hp]
  · intro hn
    simp [not_le.mpr hn]
  · intro hp
    simp [hp]
  · intro hn
    simp [not_le.mpr hn]
  · split_ifs <;> omega
  · split_ifs <;> omega
  · split_ifs <;> omega


/-- C11, at forward 0 and turn -7: left is 3 and right is -3, so the left motor runs forward
at 109 and the right motor backward at 110. -/
theorem C11_raw_signed_split_witness :
    (loopBLE ⟨false, false, false, false, false, false, -7, 0⟩ 0 0
        ⟨9, 9, 9, 9, 70, 0, [], [], [], true⟩).in3 = 0 ∧
    (loopBLE ⟨false, false, false, false, false, false, -7, 0⟩ 0 0
        ⟨9, 9, 9, 9, 70, 0, [], [], [], true⟩).in4 = 110 :=
  ((C11_raw_signed_split ⟨false, false, false, false, false, false, -7, 0⟩ 0 0
      ⟨9, 9, 9, 9, 70, 0, [], [], [], true⟩ rfl rfl rfl rfl rfl rfl
      (Or.inl (by decide))).2.2.2.2.1 (by decide)).imp id (fun h => h.trans (by decide))

/-- C13: the rescale of a clamped mixer value.  For v in [-7, 7],
`map v (-7) 7 (-255) 255` is `(v + 7) * 510 / 14 - 255` with truncating division; it sends
-7 to -255, 0 to 0 and 7 to 255, and is strictly increasing on [-7, 7]; so every rescaled
value lies in [-255, 255] and is 0 only for v = 0. -/
theorem C13_rescale_monotone (u v : Int) (hu : -7 ≤ u ∧ u ≤ 7) (hv : -7 ≤ v ∧ v ≤ 7) :
    map v (-7) 7 (-255) 255 = Int.tdiv ((v + 7) * 510) 14 - 255 ∧
    map (-7) (-7) 7 (-255) 255 = -255 ∧ map 0 (-7) 7 (-255) 255 = 0 ∧
    map 7 (-7) 7 (-255) 255 = 255 ∧
    (u < v → map u (-7) 7 (-255) 255 < map v (-7) 7 (-255) 255) ∧
    (-255 ≤ map v (-7) 7 (-255) 255 ∧ map v (-7) 7 (-255) 255 ≤ 255) ∧
    (map v (-7) 7 (-255) 255 = 0 ↔ v = 0) := by
  refine ⟨?_, by decide, by decide, by decide, ?_, map_clamped_range v hv,
    map_clamped_eq_zero v hv⟩
  · rw [map_clamped v hv, Int.tdiv_eq_ediv (by omega) (by decide)]
  · intro huv
    exact map_clamped_lt u v hu.1 huv hv.2

/-- C13, at u = -1 and v = 4: the rescaled values are ordered, and 4 gives 145. -/
theorem C13_rescale_monotone_witness :
    map (-1) (-7) 7 (-255) 255 < map 4 (-7) 7 (-255) 255 ∧ map 4 (-7) 7 (-255) 255 = 145 :=
  ⟨(C13_rescale_monotone (-1) 4 (by decide) (by decide)).2.2.2.2.1 (by decide),
   (C13_rescale_monotone (-1) 4 (by decide) (by decide)).1.trans (by decide)⟩

/-- C19: the rescale is not sign-symmetric.  For a clamped mixer value v from 1 to 6 the
magnitude of `map (-v)` is exactly `map v + 1`: the stick pushed straight forward by v
writes `map v` on IN1, and pulled straight back by v it writes `map v + 1` on IN2
(`map 4 = 145`, `map (-4) = -146`).  For v = 0 and v = 7 the magnitudes agree, 0 and
255. -/
theorem C19_rescale_not_sign_symmetric (v : Int) (w : World) (h : 1 ≤ v ∧ v ≤ 6) :
    |map (-v) (-7) 7 (-255) 255| = map v (-7) 7 (-255) 255 + 1 ∧
    (applyJoystick 0 v w).in1 = map v (-7) 7 (-255) 255 ∧
    (applyJoystick 0 (-v) w).in2 = map v (-7) 7 (-255) 255 + 1 ∧
    (map 4 (-7) 7 (-255) 255 = 145 ∧ map (-4) (-7) 7 (-255) 255 = -146) ∧
    |map 0 (-7) 7 (-255) 255| = 0 ∧
    (|map 7 (-7) 7 (-255) 255| = 255 ∧ |map (-7) (-7) 7 (-255) 255| = 255) := by
  have hpos := map_clamped v ⟨by omega, by omega⟩
  have hneg := map_clamped (-v) ⟨by omega, by omega⟩
  have hsum : map (-v) (-7) 7 (-255) 255 = -(map v (-7) 7 (-255) 255 + 1) := by
    rw [hpos, hneg]
    obtain ⟨h1, h6⟩ := h
    interval_cases v <;> decide
  have hvpos : 0 < map v (-7) 7 (-255) 255 := by
    rw [hpos]
    omega
  have hcl : ∀ z : Int, -7 ≤ z → z ≤ 7 → clamp (z - Int.tdiv 0 2) = z := by
    intro z h1 h2
    rw [clamp_eq_limit7]
    unfold Spec.limit7
    simp only [Int.zero_tdiv, sub_zero]
    omega
  have ho1 := applyJoystick_outputs 0 v w
  have ho2 := applyJoystick_outputs 0 (-v) w
  rw [hcl v (by omega) (by omega)] at ho1
  rw [hcl (-v) (by omega) (by omega)] at ho2
  simp only [World.outputs, Prod.mk.injEq] at ho1 ho2
  refine ⟨?_, ?_, ?_, by decide, by decide, by decide⟩
  · rw [hsum, abs_neg, abs_of_pos (by omega)]
  · rw [ho1.1, if_pos (le_of_lt hvpos)]
  · rw [ho2.2.1, if_neg (by omega), hsum, neg_neg]

/-- C19, at v = 4: the magnitude for -4 is 146. -/
theorem C19_rescale_not_sign_symmetric_witness :
    |map (-4) (-7) 7 (-255) 255| = 145 + 1 :=
  (C19_rescale_not_sign_symmetric 4 ⟨0, 0, 0, 0, 70, 0, [], [], [], true⟩ (by decide)).1.trans
    (by decide)


theorem loopBLE_outputs_cases (pad : GamePad) (t1 t2 : Nat) (w : World) :
    (loopBLE pad t1 t2 w).outputs =
      if pad.up = true then (↑(pwmFromPct w.speedPct), 0, ↑(pwmFromPct w.speedPct), 0)
      else if pad.down = true then
        (0, ↑(pwmFromPct w.speedPct), 0, ↑(pwmFromPct w.speedPct))
      else if pad.left = true then
        (0, ↑(pwmFromPct (w.speedPct / 2)), ↑(pwmFromPct w.speedPct), 0)
      else if pad.right = true then
        (↑(pwmFromPct w.speedPct), 0, 0, ↑(pwmFromPct (w.speedPct / 2)))
      else if pad.start = true ∨ pad.select = true then (0, 0, 0, 0)
      else if pad.xAxis ≠ 0 ∨ pad.yAxis ≠ 0 then
        (if 0 ≤ lPWM pad.xAxis pad.yAxis then lPWM pad.xAxis pad.yAxis else 0,
         if 0 ≤ lPWM pad.xAxis pad.yAxis then 0 else -lPWM pad.xAxis pad.yAxis,
         if 0 ≤ rPWM pad.xAxis pad.yAxis then rPWM pad.xAxis pad.yAxis else 0,
         if 0 ≤ rPWM pad.xAxis pad.yAxis then 0 else -rPWM pad.xAxis pad.yAxis)
      else (0, 0, 0, 0) := by
  rw [loopBLE_outputs, discreteCommand_cases]
  by_cases hup : pad.up = true
  · simp [hup, driveForward_outputs]
  by_cases hdown : pad.down = true
  · simp [hup, hdown, driveBackward_outputs]
  by_cases hleft : pad.left = true
  · simp [hup, hdown, hleft, turnLeft_outputs]
  by_cases hright : pad.right = true
  · simp [hup, hdown, hleft, hright, turnRight_outputs]
  by_cases hss : pad.start = true ∨ pad.select = true
  · simp [hup, hdown, hleft, hright, hss, stopMotors_outputs]
  · simp [hup, hdown, hleft, hright, hss, applyJoystick_split]

/-- C15: H-bridge exclusivity.  After any pass of `loopBLE`, whatever the buttons, the
joystick axes, the speed setting and the earlier state are (so in particular for a speed
setting in [0, 100] and axes in [-7, 7]), each of IN1, IN2, IN3, IN4 is in [0, 255], and
of the two pins of each motor at least one is 0: IN1 = 0 or IN2 = 0, and IN3 = 0 or
IN4 = 0. -/
theorem C15_h_bridge_exclusive (pad : GamePad) (t1 t2 : Nat) (w : World) :
    ((0 ≤ (loopBLE pad t1 t2 w).in1 ∧ (loopBLE pad t1 t2 w).in1 ≤ 255) ∧
     (0 ≤ (loopBLE pad t1 t2 w).in2 ∧ (loopBLE pad t1 t2 w).in2 ≤ 255) ∧
     (0 ≤ (loopBLE pad t1 t2 w).in3 ∧ (loopBLE pad t1 t2 w).in3 ≤ 255) ∧
     (0 ≤ (loopBLE pad t1 t2 w).in4 ∧ (loopBLE pad t1 t2 w).in4 ≤ 255)) ∧
    ((loopBLE pad t1 t2 w).in1 = 0 ∨ (loopBLE pad t1 t2 w).in2 = 0) ∧
    ((loopBLE pad t1 t2 w).in3 = 0 ∨ (loopBLE pad t1 t2 w).in4 = 0) := by
  have h := loopBLE_outputs_cases pad t1 t2 w
  have hp := pwmFromPct_le w.speedPct
  have hq := pwmFromPct_le (w.speedPct / 2)
  have hl := lPWM_range pad.xAxis pad.yAxis
  have hr := rPWM_range pad.xAxis pad.yAxis
  split_ifs at h <;>
    simp only [World.outputs, Prod.mk.injEq] at h <;>
    obtain ⟨h1, h2, h3, h4⟩ := h <;>
    rw [h1, h2, h3, h4] <;>
    refine ⟨⟨⟨?_, ?_⟩, ⟨?_, ?_⟩, ⟨?_, ?_⟩, ⟨?_, ?_⟩⟩, ?_, ?_⟩ <;>
    omega

/-- C16: the dispatcher is stateless over the outputs.  Two passes of `loopBLE` with the
same buttons, the same joystick axes and the same speed setting end with the same four
duties, whatever the duties (and the rest of the state, and the clock readings) were
before.  The three branches cover every input: a discrete command matched, or none
matched and an axis is nonzero, or none matched and both axes are zero. -/
theorem C16_outputs_stateless (pad : GamePad) (t1 t2 t1' t2' : Nat) (w w' : World)
    (hspeed : w.speedPct = w'.speedPct) :
    (loopBLE pad t1 t2 w).outputs = (loopBLE pad t1' t2' w').outputs ∧
    ((discreteCommand pad w).2 = true ∨
     ((discreteCommand pad w).2 = false ∧ (pad.xAxis ≠ 0 ∨ pad.yAxis ≠ 0)) ∨
     ((discreteCommand pad w).2 = false ∧ pad.xAxis = 0 ∧ pad.yAxis = 0)) := by
  constructor
  · rw [loopBLE_outputs_cases, loopBLE_outputs_cases, hspeed]
  · cases (discreteCommand pad w).2
    · right
      by_cases hx : pad.xAxis = 0
      · by_cases hy : pad.yAxis = 0
        · exact Or.inr ⟨rfl, hx, hy⟩
        · exact Or.inl ⟨rfl, Or.inr hy⟩
      · exact Or.inl ⟨rfl, Or.inl hx⟩
    · exact Or.inl rfl


/-- C16, at two passes with the stick fully forward: earlier duties and clock readings
differ, the duties after the pass do not. -/
theorem C16_outputs_stateless_witness :
    (loopBLE ⟨false, false, false, false, false, false, 0, 7⟩ 10 10
        ⟨1, 2, 3, 4, 70, 0, [], [], [], true⟩).outputs
      = (loopBLE ⟨false, false, false, false, false, false, 0, 7⟩ 9000 9001
        ⟨0, 255, 0, 255, 70, 5000, [], [], [], true⟩).outputs :=
  (C16_outputs_stateless ⟨false, false, false, false, false, false, 0, 7⟩ 10 10 9000 9001
    ⟨1, 2, 3, 4, 70, 0, [], [], [], true⟩
    ⟨0, 255, 0, 255, 70, 5000, [], [], [], true⟩ rfl).1

theorem lPWM_eq_zero_iff (x y : Int) : lPWM x y = 0 ↔ clamp (y - Int.tdiv x 2) = 0 :=
  map_clamped_eq_zero _ (clamp_range _)

theorem rPWM_eq_zero_iff (x y : Int) : rPWM x y = 0 ↔ clamp (y + Int.tdiv x 2) = 0 :=
  map_clamped_eq_zero _ (clamp_range _)

theorem mixed_duties_zero_iff (x y : Int) (hx : -7 ≤ x ∧ x ≤ 7) :
    (lPWM x y = 0 ∧ rPWM x y = 0) ↔ (y = 0 ∧ (x = -1 ∨ x = 0 ∨ x = 1)) := by
  rw [lPWM_eq_zero_iff, rPWM_eq_zero_iff, clamp_eq_limit7, clamp_eq_limit7,
    tdiv_two_eq_halfTurn]
  unfold Spec.limit7 Spec.halfTurn
  split_ifs <;> omega

theorem loopBLE_outputs_nonneg (pad : GamePad) (t1 t2 : Nat) (w : World) :
    0 ≤ (loopBLE pad t1 t2 w).in1 ∧ 0 ≤ (loopBLE pad t1 t2 w).in2 ∧
    0 ≤ (loopBLE pad t1 t2 w).in3 ∧ 0 ≤ (loopBLE pad t1 t2 w).in4 := by
  have h := loopBLE_outputs_cases pad t1 t2 w
  split_ifs at h <;>
    simp only [World.outputs, Prod.mk.injEq] at h <;>
    obtain ⟨h1, h2, h3, h4⟩ := h <;>
    rw [h1, h2, h3, h4] <;>
    refine ⟨?_, ?_, ?_, ?_⟩ <;>
    omega

/-- C17: joystick dead zone.  With no discrete button pressed and the turn axis (X) in
[-7, 7], the four duties after a pass of `loopBLE` are all 0 exactly when the forward axis
(Y) is 0 and the turn axis is -1, 0 or 1.  For forward 0 and turn 1 or -1 the guard of the
joystick branch holds, so the pass runs the mixer and not the stop branch, and the mixer
writes four zeros.  For every other deflection at least one pin gets a positive duty.  The
forward axis needs no bound for this. -/
theorem C17_joystick_dead_zone (pad : GamePad) (t1 t2 : Nat) (w : World)
    (hup : pad.up = false) (hdown : pad.down = false) (hleft : pad.left = false)
    (hright : pad.right = false) (hstart : pad.start = false)
    (hselect : pad.select = false)
    (ht : -7 ≤ pad.xAxis ∧ pad.xAxis ≤ 7) :
    ((loopBLE pad t1 t2 w).outputs = (0, 0, 0, 0) ↔
      (pad.yAxis = 0 ∧ (pad.xAxis = -1 ∨ pad.xAxis = 0 ∨ pad.xAxis = 1))) ∧
    (pad.yAxis = 0 → (pad.xAxis = -1 ∨ pad.xAxis = 1) →
      (!(discreteCommand pad w).2 && (pad.xAxis != 0 || pad.yAxis != 0)) = true ∧
      (applyJoystick pad.xAxis pad.yAxis w).outputs = (0, 0, 0, 0)) ∧
    (¬ (pad.yAxis = 0 ∧ (pad.xAxis = -1 ∨ pad.xAxis = 0 ∨ pad.xAxis = 1)) →
      0 < (loopBLE pad t1 t2 w).in1 ∨ 0 < (loopBLE pad t1 t2 w).in2 ∨
      0 < (loopBLE pad t1 t2 w).in3 ∨ 0 < (loopBLE pad t1 t2 w).in4) := by
  have hz := mixed_duties_zero_iff pad.xAxis pad.yAxis ht
  have hsplit : ∀ x y : Int,
      ((if 0 ≤ lPWM x y then lPWM x y else 0, if 0 ≤ lPWM x y then 0 else -lPWM x y,
        if 0 ≤ rPWM x y then rPWM x y else 0, if 0 ≤ rPWM x y then 0 else -rPWM x y)
        = ((0 : Int), (0 : Int), (0 : Int), (0 : Int))) ↔ (lPWM x y = 0 ∧ rPWM x y = 0) := by
    intro x y
    simp only [Prod.mk.injEq]
    split_ifs <;> omega
  have hout := loopBLE_outputs_cases pad t1 t2 w
  simp only [hup, hdown, hleft, hright, hstart, hselect, Bool.false_eq_true, if_false,
    or_self] at hout
  have hmain : (loopBLE pad t1 t2 w).outputs = (0, 0, 0, 0) ↔
      (pad.yAxis = 0 ∧ (pad.xAxis = -1 ∨ pad.xAxis = 0 ∨ pad.xAxis = 1)) := by
    rw [hout]
    by_cases hnz : pad.xAxis ≠ 0 ∨ pad.yAxis ≠ 0
    · rw [if_pos hnz, hsplit, hz]
    · rw [if_neg hnz]
      have hx : pad.xAxis = 0 := by
        by_contra hne
        exact hnz (Or.inl hne)
      have hy : pad.yAxis = 0 := by
        by_contra hne
        exact hnz (Or.inr hne)
      simp [hx, hy]
  refine ⟨hmain, ?_, ?_⟩
  · intro hy hx
    have hd : (discreteCommand pad w).2 = false := by
      rw [discreteCommand_cases]
      simp [hup, hdown, hleft, hright, hstart, hselect]
    have hx0 : pad.xAxis ≠ 0 := by
      rcases hx with hx | hx <;> rw [hx] <;> decide
    refine ⟨by simp [hd, hx0], ?_⟩
    rw [applyJoystick_split, hsplit, hz]
    exact ⟨hy, by omega⟩
  · intro hnd
    have hne : (loopBLE pad t1 t2 w).outputs ≠ (0, 0, 0, 0) := fun h => hnd (hmain.mp h)
    have h4 : (loopBLE pad t1 t2 w).outputs
        = ((loopBLE pad t1 t2 w).in1, (loopBLE pad t1 t2 w).in2, (loopBLE pad t1 t2 w).in3,
           (loopBLE pad t1 t2 w).in4) := rfl
    have hb := loopBLE_outputs_nonneg pad t1 t2 w
    by_contra hcon
    push_neg at hcon
    apply hne
    rw [h4]
    simp only [Prod.mk.injEq]
    omega


/-- C17, at forward 0 and turn 1: the pass leaves four zeros although the stick is
deflected. -/
theorem C17_joystick_dead_zone_witness :
    (loopBLE ⟨false, false, false, false, false, false, 1, 0⟩ 0 0
        ⟨9, 9, 9, 9, 70, 0, [], [], [], true⟩).outputs = (0, 0, 0, 0) :=
  (C17_joystick_dead_zone ⟨false, false, false, false, false, false, 1, 0⟩ 0 0
    ⟨9, 9, 9, 9, 70, 0, [], [], [], true⟩ rfl rfl rfl rfl rfl rfl (by decide)).1.mpr
    (by decide)

/-! ## The handshake sequence and the matcher for every needle -/

theorem attemptAutoRename_of_reply (name : List Char) (w : World) (hname : name ≠ [])
    (hok : (waitForBtResponse "OK".toList AT_COMMAND_TIMEOUT_MS
      (sendAtCommand "AT".toList (flushBtInput 40 w))).1 = true) :
    (attemptAutoRename name w).btTx =
      (sendAtCommand "AT+RESET".toList
        (waitForBtResponse "OK".toList AT_COMMAND_TIMEOUT_MS
          (sendAtCommand ("AT+NAME".toList ++ name)
            (serialPrintln "HM-10 responded OK."
              (waitForBtResponse "OK".toList AT_COMMAND_TIMEOUT_MS
                (sendAtCommand "AT".toList (flushBtInput 40 w))).2))).2).btTx := by
  have hlen : name.length ≠ 0 := by
    simpa using hname
  unfold attemptAutoRename
  rw [if_neg hlen]
  dsimp only
  generalize waitForBtResponse "OK".toList AT_COMMAND_TIMEOUT_MS
    (sendAtCommand "AT".toList (flushBtInput 40 w)) = r at hok ⊢
  rcases r with ⟨ok, w2⟩
  simp only at hok
  subst hok
  rfl

/-- C12: best-effort handshake sequence.  For a non-empty desired name, if the wait for
"OK" that follows "AT" succeeds, then `attemptAutoRename` writes to the secondary link
exactly "AT", "AT+NAME" followed by the name, and "AT+RESET", in this order, each followed
by CR LF, and nothing else, whatever the two later waits observe. -/
theorem C12_handshake_sequence (name : List Char) (w : World) (hname : name ≠ [])
    (hok : (waitForBtResponse "OK".toList AT_COMMAND_TIMEOUT_MS
      (sendAtCommand "AT".toList (flushBtInput 40 w))).1 = true) :
    (attemptAutoRename name w).btTx =
      w.btTx ++ (['A', 'T'] ++ ['\r', '\n'])
        ++ (['A', 'T', '+', 'N', 'A', 'M', 'E'] ++ name ++ ['\r', '\n'])
        ++ (['A', 'T', '+', 'R', 'E', 'S', 'E', 'T'] ++ ['\r', '\n']) := by
  rw [attemptAutoRename_of_reply name w hname hok, sendAtCommand_btTx,
    waitForBtResponse_btTx, sendAtCommand_btTx, serialPrintln_btTx, waitForBtResponse_btTx,
    sendAtCommand_btTx, flushBtInput_btTx]
  simp

/-- C12, on a link that answers "OK" to "AT", nothing to "AT+NAME" before the deadline,
and "OK" to "AT+RESET". -/
theorem C12_handshake_sequence_witness :
    (attemptAutoRename "CAR".toList
        ⟨0, 0, 0, 0, 70, 0, [], [],
          [Poll.expired, Poll.byte 'O', Poll.byte 'K', Poll.expired, Poll.byte 'O',
            Poll.byte 'K'], false⟩).btTx = "AT\r\nAT+NAMECAR\r\nAT+RESET\r\n".toList :=
  (C12_handshake_sequence "CAR".toList
      ⟨0, 0, 0, 0, 70, 0, [], [],
        [Poll.expired, Poll.byte 'O', Poll.byte 'K', Poll.expired, Poll.byte 'O',
          Poll.byte 'K'], false⟩ (by decide) (by decide)).trans (by decide)

/-- C14: the streaming matcher is not a complete substring search.  There is a non-empty
needle and a byte stream containing it for which `waitForBtResponse`, fed the whole
stream, returns false: the needle "AAB" on the stream "AAAB".  The cause is the mismatch
rule of the loop: the match position becomes 1 when the byte equals the needle's first
character and 0 otherwise. -/
theorem C14_matcher_incomplete :
    (∃ needle stream : List Char, needle ≠ [] ∧ needle <:+: stream ∧
      ∀ (t : Nat) (w : World), w.polls = stream.map Poll.byte →
        (waitForBtResponse needle t w).1 = false) ∧
    (['A', 'A', 'B'] <:+: ['A', 'A', 'A', 'B'] ∧
      (waitLoop ['A', 'A', 'B'] 3 0
        [Poll.byte 'A', Poll.byte 'A', Poll.byte 'A', Poll.byte 'B']).1 = false) ∧
    (∀ (expect : List Char) (len idx : Nat) (c : Char) (rest : List Poll),
      c ≠ charAt expect idx →
      waitLoop expect len idx (Poll.byte c :: rest)
        = waitLoop expect len (if c = charAt expect 0 then 1 else 0) rest) := by
  refine ⟨⟨['A', 'A', 'B'], ['A', 'A', 'A', 'B'], by decide, ⟨['A'], [], rfl⟩, ?_⟩,
    ⟨⟨['A'], [], rfl⟩, by decide⟩, ?_⟩
  · intro t w hw
    have hrun : (waitLoop ['A', 'A', 'B'] ['A', 'A', 'B'].length 0
        (List.map Poll.byte ['A', 'A', 'A', 'B'])).1 = false := by decide
    unfold waitForBtResponse
    rw [hw]
    exact hrun
  · intro expect len idx c rest hc
    rw [waitLoop, if_neg hc]


theorem take_succ_charAt (expect : List Char) (idx : Nat) (h : idx < expect.length) :
    expect.take (idx + 1) = expect.take idx ++ [charAt expect idx] := by
  induction expect generalizing idx with
  | nil => simp at h
  | cons a l ih =>
    cases idx with
    | zero => simp [charAt]
    | succ n =>
      have hn : n < l.length := by
        simpa using h
      have := ih n hn
      simp only [charAt, List.getD_cons_succ, List.take_succ_cons, List.cons_append,
        List.cons.injEq, true_and] at this ⊢
      exact this

theorem take_length_sub_one_charAt (expect : List Char) (idx : Nat)
    (h : idx + 1 = expect.length) : expect = expect.take idx ++ [charAt expect idx] := by
  rw [← take_succ_charAt expect idx (by omega), h, List.take_length]

theorem bytesBeforeTimeout_append (pre rest : List Poll) (h : Poll.expired ∉ pre) :
    bytesBeforeTimeout (pre ++ rest) = bytesOf pre ++ bytesBeforeTimeout rest := by
  induction pre with
  | nil => simp [bytesOf]
  | cons p tl ih =>
    have htl : Poll.expired ∉ tl := fun hm => h (List.mem_cons_of_mem _ hm)
    cases p with
    | expired => exact absurd (List.mem_cons_self _ _) h
    | idle => simpa [bytesBeforeTimeout, bytesOf] using ih htl
    | byte c => simpa [bytesBeforeTimeout, bytesOf] using ih htl

theorem waitLoop_sound (expect : List Char) (ps : List Poll) :
    ∀ (idx : Nat) (rest : List Poll), idx < expect.length →
      waitLoop expect expect.length idx ps = (true, rest) →
      ∃ pre, ps = pre ++ rest ∧ Poll.expired ∉ pre ∧
        ∀ hist : List Char, expect.take idx <:+ hist → expect <:+ hist ++ bytesOf pre := by
  induction ps with
  | nil =>
    intro idx rest _ h
    simp [waitLoop] at h
  | cons p tl ih =>
    intro idx rest hidx h
    cases p with
    | expired => simp [waitLoop] at h
    | idle =>
      rw [waitLoop] at h
      obtain ⟨pre, h1, h2, h3⟩ := ih idx rest hidx h
      exact ⟨Poll.idle :: pre, by simp [h1], by simp [h2], by simpa [bytesOf] using h3⟩
    | byte c =>
      rw [waitLoop] at h
      by_cases hc : c = charAt expect idx
      · rw [if_pos hc] at h
        by_cases hlast : idx + 1 = expect.length
        · rw [if_pos hlast] at h
          have hr : tl = rest := by
            simpa using h
          subst hr
          refine ⟨[Poll.byte c], by simp, by simp, ?_⟩
          intro hist hs
          obtain ⟨s, hs⟩ := hs
          refine ⟨s, ?_⟩
          have hexp := take_length_sub_one_charAt expect idx hlast
          rw [← hc] at hexp
          simp only [bytesOf]
          rw [← hs, List.append_assoc, ← hexp]
        · rw [if_neg hlast] at h
          obtain ⟨pre, h1, h2, h3⟩ := ih (idx + 1) rest (by omega) h
          refine ⟨Poll.byte c :: pre, by simp [h1], by simp [h2], ?_⟩
          intro hist hs
          have hstep : expect.take (idx + 1) <:+ hist ++ [c] := by
            obtain ⟨s, hs⟩ := hs
            refine ⟨s, ?_⟩
            rw [take_succ_charAt expect idx hidx, ← hc, ← List.append_assoc, hs]
          have := h3 (hist ++ [c]) hstep
          simpa [bytesOf] using this
      · rw [if_neg hc] at h
        by_cases h0 : c = charAt expect 0
        · rw [if_pos h0] at h
          have hidx0 : idx ≠ 0 := by
            intro hz
            rw [hz] at hc
            exact hc h0
          obtain ⟨pre, h1, h2, h3⟩ := ih 1 rest (by omega) h
          refine ⟨Poll.byte c :: pre, by simp [h1], by simp [h2], ?_⟩
          intro hist _
          have hstep : expect.take 1 <:+ hist ++ [c] := by
            refine ⟨hist, ?_⟩
            rw [take_succ_charAt expect 0 (by omega), ← h0]
            simp
          have := h3 (hist ++ [c]) hstep
          simpa [bytesOf] using this
        · rw [if_neg h0] at h
          obtain ⟨pre, h1, h2, h3⟩ := ih 0 rest (by omega) h
          refine ⟨Poll.byte c :: pre, by simp [h1], by simp [h2], ?_⟩
          intro hist _
          have := h3 (hist ++ [c]) (by simp)
          simpa [bytesOf] using this

/-- C18: matcher soundness for every needle.  For a non-empty needle, if
`waitForBtResponse` returns true then the bytes it consumed end with the needle, so the
needle occurs in the bytes readable before the deadline; and when the needle does not
occur there, the function returns false. -/
theorem C18_matcher_sound (expect : List Char) (t : Nat) (w : World) (hne : expect ≠ []) :
    ((waitForBtResponse expect t w).1 = true →
      ∃ pre, w.polls = pre ++ (waitForBtResponse expect t w).2.polls ∧
        Poll.expired ∉ pre ∧ expect <:+ bytesOf pre ∧
        expect <:+: bytesBeforeTimeout w.polls) ∧
    (¬ expect <:+: bytesBeforeTimeout w.polls → (waitForBtResponse expect t w).1 = false) := by
  have hlen : 0 < expect.length := List.length_pos.mpr hne
  have hsound : (waitForBtResponse expect t w).1 = true →
      ∃ pre, w.polls = pre ++ (waitForBtResponse expect t w).2.polls ∧
        Poll.expired ∉ pre ∧ expect <:+ bytesOf pre ∧
        expect <:+: bytesBeforeTimeout w.polls := by
    intro h
    obtain ⟨pre, h1, h2, h3⟩ := waitLoop_sound expect w.polls 0
      (waitLoop expect expect.length 0 w.polls).2 hlen (Prod.ext h rfl)
    have hsuf : expect <:+ bytesOf pre := by
      simpa using h3 [] (by simp)
    refine ⟨pre, h1, h2, hsuf, ?_⟩
    rw [h1, bytesBeforeTimeout_append pre _ h2]
    obtain ⟨s, hs⟩ := hsuf
    exact ⟨s, bytesBeforeTimeout (waitLoop expect expect.length 0 w.polls).2, by rw [hs]⟩
  refine ⟨hsound, ?_⟩
  intro hno
  cases hres : (waitForBtResponse expect t w).1 with
  | false => rfl
  | true =>
    obtain ⟨_, _, _, _, hin⟩ := hsound hres
    exact absurd hin hno

/-- C18, for the needle "AAB": on the bytes "AB" the wait fails, and on the bytes "xAABy"
the wait succeeds and the needle is there. -/
theorem C18_matcher_sound_witness :
    (waitForBtResponse "AAB".toList 1500
        ⟨0, 0, 0, 0, 70, 0, [], [], [Poll.byte 'A', Poll.byte 'B', Poll.idle], false⟩).1
      = false ∧
    "AAB".toList <:+: bytesBeforeTimeout
      [Poll.byte 'x', Poll.byte 'A', Poll.byte 'A', Poll.byte 'B', Poll.byte 'y'] :=
  ⟨(C18_matcher_sound "AAB".toList 1500
      ⟨0, 0, 0, 0, 70, 0, [], [], [Poll.byte 'A', Poll.byte 'B', Poll.idle], false⟩
      (by decide)).2 (by decide),
   ((C18_matcher_sound "AAB".toList 1500
      ⟨0, 0, 0, 0, 70, 0, [], [],
        [Poll.byte 'x', Poll.byte 'A', Poll.byte 'A', Poll.byte 'B', Poll.byte 'y'], false⟩
      (by decide)).1 (by decide)).elim (fun _ h => h.2.2.2)⟩

end RBC
